import Mathlib

/-!
Verification of the batch trend-collection pipeline of the S-T-Project
repository: a shallow embedding of scripts/batch_processor.py and
src/api_clients/pytrends_client.py, together with theorems settling the
behavioural claims made about them.

Modelling conventions:
- pandas DataFrames are modelled as a row count plus named columns of
  optional rational cells (a missing/NaN cell is none); all cells are
  numeric, so the dtype check of validate_data always passes.
- Python exceptions are modelled by Except String; a function that
  catches every exception and returns None is Option-valued.
- wall-clock sleeps are recorded as data (lists of delay durations)
  rather than performed.
-/

namespace BatchTrends

/-- Model of a pandas DataFrame as used by the pipeline: a number of rows
and a list of named columns, each column a list of optional rational
cells (none models a missing/NaN value). -/
structure DataFrame where
  nrows : Nat
  cols : List (String × List (Option ℚ))
deriving DecidableEq, Repr

/-- Well-formedness: every column holds exactly nrows cells. -/
def DataFrame.wf (df : DataFrame) : Prop :=
  ∀ c ∈ df.cols, c.2.length = df.nrows

/-- Number of columns, len(data.columns). -/
def DataFrame.ncols (df : DataFrame) : Nat := df.cols.length

/-- pandas df.empty: true when either axis has length zero. -/
def DataFrame.isEmpty (df : DataFrame) : Bool :=
  df.nrows = 0 || df.cols.length = 0

/-- Total count of missing cells, data.isnull().sum().sum(). -/
def DataFrame.missingCount (df : DataFrame) : Nat :=
  (df.cols.map (fun c => (c.2.filter Option.isNone).length)).sum

/-- missing_ratio of validate_data:
data.isnull().sum().sum() / (len(data) * len(data.columns)).
Rational division; when the denominator is zero the quotient is 0 here,
and the subsequent strict comparison against the threshold fails, which
matches the NaN comparison behaviour of the numpy computation. -/
def DataFrame.missingRatio (df : DataFrame) : ℚ :=
  (df.missingCount : ℚ) / ((df.nrows : ℚ) * (df.ncols : ℚ))

/-- Series.dropna(): the present values of a column. -/
def columnValues (cells : List (Option ℚ)) : List ℚ :=
  cells.filterMap id

/-- Series.max() on a non-empty series (the empty case is unreachable:
callers guard on a positive length). -/
def seriesMax : List ℚ → ℚ
  | [] => 0
  | x :: xs => xs.foldl max x

/-- Series.min() on a non-empty series. -/
def seriesMin : List ℚ → ℚ
  | [] => 0
  | x :: xs => xs.foldl min x

/-- The validation section of the batch configuration, with the field
names of the source config dictionary. -/
structure ValidationConfig where
  min_data_points : Nat
  max_missing_values : ℚ
  validate_trends : Bool
deriving DecidableEq, Repr

/-- One iteration of the per-column loop of BatchProcessor.validate_data:
the column named date is skipped; otherwise the non-missing values are
taken and, when there is at least one, the range check values.max() > 100
or values.min() < 0 rejects.  (The is_numeric_dtype rejection of the
source cannot fire in this model, where every cell is numeric.) -/
def validColumnCheck (name : String) (cells : List (Option ℚ)) : Bool :=
  if name = "date" then true
  else
    let values := columnValues cells
    if values.length > 0 then
      if seriesMax values > 100 || seriesMin values < 0 then false else true
    else true

/-- BatchProcessor.validate_data (scripts/batch_processor.py lines
235-275): minimum row count, then missing-value ratio, then, when
validate_trends is set, the per-column numeric-range scan; the first
failing check returns False, otherwise True. -/
def validate_data (data : DataFrame) (cfg : ValidationConfig) : Bool :=
  if data.nrows < cfg.min_data_points then false
  else if data.missingRatio > cfg.max_missing_values then false
  else if cfg.validate_trends then
    data.cols.all (fun c => validColumnCheck c.1 c.2)
  else true

/-! Task generation (BatchProcessor.generate_batch_tasks, lines 147-168). -/

/-- Replacement of a space character by an underscore, the per-character
action of Python str.replace with a one-character pattern. -/
def replChar (c : Char) : Char :=
  if c = ' ' then '_' else c

/-- Python timeframe.replace of the space character by the underscore
character, character by character. -/
def replaceSpaces (s : String) : String :=
  String.mk (s.data.map replChar)

/-- The task identifier built at line 163: keyword, location and the
space-replaced timeframe joined by underscores. -/
def task_id (keyword location timeframe : String) : String :=
  keyword ++ "_" ++ location ++ "_" ++ replaceSpaces timeframe

/-- One unit of work, the task dictionary of generate_batch_tasks. -/
structure Task where
  keyword : String
  location : String
  timeframe : String
  tid : String
deriving DecidableEq, Repr

/-- The task built for one (keyword, location, timeframe) combination. -/
def mkTask (keyword location timeframe : String) : Task :=
  ⟨keyword, location, timeframe, task_id keyword location timeframe⟩

/-- BatchProcessor.generate_batch_tasks: the triple nested loop over
keywords, then locations, then timeframes, appending one task per
combination. -/
def generate_batch_tasks (keywords locations timeframes : List String) :
    List Task :=
  keywords.flatMap (fun k =>
    locations.flatMap (fun l =>
      timeframes.map (fun t => mkTask k l t)))

/-! Retry with exponential backoff
(PyTrendsClient._retry_request, src/api_clients/pytrends_client.py lines
67-101, together with _handle_rate_limit, lines 58-65). -/

/-- Observable outcome of one _retry_request call: the returned value or
the re-raised last exception, the number of attempts made, the backoff
sleeps performed between attempts, and the courtesy pause performed by
_handle_rate_limit after a successful call (1.0 second, or 0 when the
call never succeeded). -/
structure RetryOutcome (α : Type) where
  result : Except String α
  attempts : Nat
  backoffSleeps : List ℚ
  courtesyPause : ℚ
deriving Repr

/-- The attempt loop of _retry_request.  The operation is modelled as a
function from the attempt index to its outcome; remaining counts the
attempts still allowed after the current one (the source loop runs
attempt over range(retries + 1)).  On success the courtesy pause of
_handle_rate_limit runs and the result is returned; on failure with no
attempt remaining the last exception is re-raised; otherwise the loop
sleeps backoff_factor to the power of the attempt index and retries. -/
def retryGo (backoff : ℚ) (op : Nat → Except String α) :
    Nat → Nat → RetryOutcome α
  | attempt, 0 =>
    match op attempt with
    | .ok v => ⟨.ok v, 1, [], 1⟩
    | .error e => ⟨.error e, 1, [], 0⟩
  | attempt, r + 1 =>
    match op attempt with
    | .ok v => ⟨.ok v, 1, [], 1⟩
    | .error _ =>
      let rest := retryGo backoff op (attempt + 1) r
      ⟨rest.result, rest.attempts + 1,
       backoff ^ attempt :: rest.backoffSleeps, rest.courtesyPause⟩

/-- PyTrendsClient._retry_request with the client configured for the
given number of retries and backoff factor. -/
def retryRequest (retries : Nat) (backoff : ℚ)
    (op : Nat → Except String α) : RetryOutcome α :=
  retryGo backoff op 0 retries

/-- The column drop at lines 156-158 of get_interest_over_time: the
isPartial column is removed when present. -/
def dropMetaColumn (df : DataFrame) : DataFrame :=
  ⟨df.nrows, df.cols.filter (fun c => c.1 ≠ "isPartial")⟩

/-- PyTrendsClient.get_interest_over_time (lines 131-167).  The inner
fetch is modelled per attempt; pytrends may return None, hence the
operation yields an optional DataFrame.  The whole body sits in a
try/except that returns None on any exception, so the function is
Option-valued: None on a re-raised exhausted-retry error, on a None
result and on an empty result; otherwise the result with the isPartial
column dropped. -/
def get_interest_over_time (retries : Nat) (backoff : ℚ)
    (op : Nat → Except String (Option DataFrame)) : Option DataFrame :=
  match (retryRequest retries backoff op).result with
  | .error _ => none
  | .ok none => none
  | .ok (some df) => if df.isEmpty then none else some (dropMetaColumn df)

/-! Per-task processing and batch execution
(BatchProcessor.process_single_task, lines 170-233, and
BatchProcessor.process_batch, lines 277-313). -/

/-- A record of self.failed_items: task identifier and captured error
message (the timestamp field carries no behavioural content and is
omitted). -/
structure Failure where
  tid : String
  error : String
deriving DecidableEq, Repr

/-- The result dictionary built by process_single_task for a successful
task: identifiers and the processed data (the metadata timestamps are
omitted). -/
structure TaskResult where
  tid : String
  keyword : String
  location : String
  timeframe : String
  data : DataFrame
deriving DecidableEq, Repr

/-- Behaviour of the collaborators called inside process_single_task for
one task: fetch is the value returned by
PyTrendsClient.get_interest_over_time, which catches its own exceptions
and returns an optional DataFrame; processFn models
self.data_processor.process_trends_data, which may raise (error case).
Note the source repository's TrendsDataProcessor defines no method named
process_trends_data, so against the shipped collaborator processFn
always raises AttributeError; it is kept general here. -/
structure TaskEnv where
  fetch : Option DataFrame
  processFn : DataFrame → Except String DataFrame

/-- BatchProcessor.process_single_task: fetch the data; when it is None
or empty, return None without recording anything; process it (an
exception here is caught by the surrounding handler, which appends a
failure record and returns None); validate it, returning None without
recording anything when validation fails; otherwise build the result.
The function returns the optional result together with the updated
failed_items list. -/
def process_single_task (cfg : ValidationConfig) (env : TaskEnv)
    (task : Task) (failed : List Failure) :
    Option TaskResult × List Failure :=
  match env.fetch with
  | none => (none, failed)
  | some data =>
    if data.isEmpty then (none, failed)
    else
      match env.processFn data with
      | .error e => (none, failed ++ [⟨task.tid, e⟩])
      | .ok processed =>
        if validate_data processed cfg then
          (some ⟨task.tid, task.keyword, task.location, task.timeframe,
                 processed⟩, failed)
        else (none, failed)

/-- The mutable processing state of a BatchProcessor instance:
processed_items (a set of task identifiers), failed_items and the
accumulated results. -/
structure BatchState where
  processed_items : Finset String
  failed_items : List Failure
  results : List TaskResult
deriving DecidableEq

/-- The handling of one completed future in process_batch: a non-None
result is appended to the batch results and its task identifier added to
processed_items; failed_items carries whatever process_single_task
appended.  (The broad except around future.result() in the source is
unreachable here because process_single_task catches every exception
itself.) -/
def processCompletedTask (cfg : ValidationConfig) (envOf : Task → TaskEnv)
    (s : BatchState) (task : Task) : BatchState :=
  let pr := process_single_task cfg (envOf task) task s.failed_items
  match pr.1 with
  | some r => ⟨insert task.tid s.processed_items, pr.2, s.results ++ [r]⟩
  | none => ⟨s.processed_items, pr.2, s.results⟩

/-- BatchProcessor.process_batch over one slice of tasks.  The source
collects completions in as_completed order; the accounting below is a
fixed sequential order, which determines the same processed_items set
and the same multiset of failure records. -/
def process_batch (cfg : ValidationConfig) (envOf : Task → TaskEnv)
    (tasks : List Task) (s : BatchState) : BatchState :=
  tasks.foldl (processCompletedTask cfg envOf) s

/-! Orchestration (BatchProcessor.run_batch_processing, lines 410-464,
and BatchProcessor.generate_summary_report, lines 466-508). -/

/-- The task-selection step of run_batch_processing: all tasks are
generated from the configured lists; the resume branch at lines 423-427
only logs and executes a bare pass statement, so the generated list is
returned unchanged whether or not a resume identifier is supplied. -/
def tasks_to_run (keywords locations timeframes : List String)
    (resume_from : Option String) : List Task :=
  let all_tasks := generate_batch_tasks keywords locations timeframes
  match resume_from with
  | some _ => all_tasks
  | none => all_tasks

/-- The batch slicing loop of run_batch_processing: for i in
range(0, len(tasks), batch_size), take tasks[i : i + batch_size].  The
first argument is fuel bounding the number of iterations; the list
length is enough fuel whenever the step is at least one. -/
def batchSlicesGo (bs : Nat) : Nat → List Task → List (List Task)
  | 0, _ => []
  | _, [] => []
  | fuel + 1, ts => ts.take bs :: batchSlicesGo bs fuel (ts.drop bs)

/-- The list of batch slices processed by run_batch_processing (the
source step batch_size is a positive configuration value; range raises
on a zero step, modelled as no slices). -/
def batchSlices (bs : Nat) (tasks : List Task) : List (List Task) :=
  if bs = 0 then [] else batchSlicesGo bs tasks.length tasks

/-- The processing_summary of generate_summary_report.  success_rate is
the percentage computed at line 479. -/
structure ProcessingSummary where
  total_tasks : Nat
  successful_tasks : Nat
  failed_tasks : Nat
  success_rate : ℚ
deriving DecidableEq, Repr

/-- BatchProcessor.generate_summary_report, reduced to its
processing_summary payload.  The division at line 479 raises
ZeroDivisionError when processed_items and failed_items are both empty;
a raised exception aborts report generation, modelled as none. -/
def generate_summary_report (keywords locations timeframes : List String)
    (processed : Finset String) (failed : List Failure) :
    Option ProcessingSummary :=
  let p := processed.card
  let f := failed.length
  if p + f = 0 then none
  else
    some ⟨keywords.length * locations.length * timeframes.length, p, f,
          (p : ℚ) / ((p : ℚ) + (f : ℚ)) * 100⟩

/-! Specification-side validator, for comparison with validate_data. -/

/-- ValidationVerdict of the specification data model: an accepted flag
and an optional rejection reason. -/
structure ValidationVerdict where
  accepted : Bool
  reason : Option String
deriving DecidableEq, Repr

/-- The validator configuration as the specification words it, with a
configurable numeric range. -/
structure SpecValidationConfig where
  min_data_points : Nat
  max_missing_ratio : ℚ
  enforce_numeric_range : Bool
  low : ℚ
  high : ℚ
deriving DecidableEq, Repr

/-- Whether one optional cell holds a value outside the closed interval
from low to high (a missing cell is never out of range). -/
def cellOutOfRange (low high : ℚ) (cell : Option ℚ) : Bool :=
  match cell with
  | some v => decide (v < low) || decide (v > high)
  | none => false

/-- Whether some present cell of the data lies outside the closed
interval from low to high. -/
def anyValueOutside (low high : ℚ) (data : DataFrame) : Bool :=
  data.cols.any (fun c => c.2.any (cellOutOfRange low high))

/-- Validator as the claim states it, rules in order with first failure
winning: too few records; missing fraction strictly above the threshold;
when range enforcement is enabled, any value outside the configured
range; otherwise accept. -/
def specValidate (data : DataFrame) (cfg : SpecValidationConfig) :
    ValidationVerdict :=
  if data.nrows < cfg.min_data_points then
    ⟨false, some "insufficient_data_points"⟩
  else if data.missingRatio > cfg.max_missing_ratio then
    ⟨false, some "too_many_missing_values"⟩
  else if cfg.enforce_numeric_range && anyValueOutside cfg.low cfg.high data
  then ⟨false, some "value_out_of_range"⟩
  else ⟨true, none⟩

/-- Whether some present cell of a non-date column lies outside the
closed interval from 0 to 100. -/
def anyValueOutOfFixedRange (data : DataFrame) : Bool :=
  data.cols.any (fun c => c.1 ≠ "date" && c.2.any (cellOutOfRange 0 100))

/-- Validator pipeline as amended to the source behaviour: the missing
fraction is taken over all columns (a date column included when one is
present), and range enforcement uses the fixed Google-Trends range from
0 to 100 over the non-date columns; rules still apply in order with
first failure winning. -/
def specValidateAmended (data : DataFrame) (cfg : ValidationConfig) :
    ValidationVerdict :=
  if data.nrows < cfg.min_data_points then
    ⟨false, some "insufficient_data_points"⟩
  else if data.missingRatio > cfg.max_missing_values then
    ⟨false, some "too_many_missing_values"⟩
  else if cfg.validate_trends && anyValueOutOfFixedRange data then
    ⟨false, some "value_out_of_range"⟩
  else ⟨true, none⟩

/-! Theorems. -/

/-- Behaviour of the retry loop when every attempt fails: the loop walks
through all allowed attempts, sleeping the exponential backoff after
each failed attempt except the last, and surfaces the last error. -/
theorem retryGo_allFail {α : Type} (backoff : ℚ) (es : Nat → String) :
    ∀ (r a : Nat),
      retryGo backoff (fun n => (.error (es n) : Except String α)) a r =
        ⟨.error (es (a + r)), r + 1,
         (List.range r).map (fun i => backoff ^ (a + i)), 0⟩ := by
  intro r
  induction r with
  | zero => intro a; simp [retryGo]
  | succ r ih =>
    intro a
    have hsleep : (List.range (r + 1)).map (fun i => backoff ^ (a + i)) =
        backoff ^ a :: (List.range r).map (fun i => backoff ^ (a + 1 + i)) := by
      rw [List.range_succ_eq_map, List.map_cons, List.map_map]
      refine congrArg₂ List.cons (by simp) ?_
      refine List.map_congr_left (fun i _ => ?_)
      simp only [Function.comp_apply]
      exact congrArg (fun n => backoff ^ n) (by omega)
    have harg : a + 1 + r = a + (r + 1) := by omega
    simp only [retryGo, ih (a + 1), hsleep, harg]

/-- C3 counterexample: the claim says a retrying client with
max_retries = 2 returns failure after exactly 1 attempt on an operation
that always fails with a fatal (auth) error.  On the code, retryRequest
with 2 retries makes 3 attempts on that operation, not 1: the retry loop
does not classify errors at all. -/
theorem c3_counterexample :
    (retryRequest 2 2
      (fun _ => (.error "401 authentication failed" : Except String Unit))).attempts
      = 3 ∧ (3 : Nat) ≠ 1 := by
  constructor
  · rfl
  · decide

/-- C3 amended: PyTrendsClient._retry_request performs no error
classification; every failure, fatal or transient, is retried.  An
operation that fails on every attempt is attempted exactly
max_retries + 1 times, with the exponential backoff sleep after every
attempt but the last, and the last error is surfaced. -/
theorem c3_amended {α : Type} (retries : Nat) (backoff : ℚ)
    (es : Nat → String) :
    retryRequest retries backoff (fun n => (.error (es n) : Except String α)) =
      ⟨.error (es retries), retries + 1,
       (List.range retries).map (fun i => backoff ^ i), 0⟩ := by
  have h := retryGo_allFail (α := α) backoff es retries 0
  simpa using h

/-- C7: the retrying client configured with 3 retries and backoff factor
2, run on an operation that fails on attempts 0, 1 and 2 and succeeds on
attempt 3, returns that success after exactly 4 attempts, sleeps the
backoff factor to the power of the attempt index after each failed
attempt (1, 2 and 4 time units, at least 7 in total), and performs the
fixed courtesy pause of one time unit after the successful call. -/
theorem c7_backoff_scenario {α : Type} (op : Nat → Except String α) (v : α)
    (hfail : ∀ n, n < 3 → ∃ e, op n = .error e) (hok : op 3 = .ok v) :
    retryRequest 3 2 op = ⟨.ok v, 4, [1, 2, 4], 1⟩ ∧
      ((retryRequest 3 2 op).backoffSleeps.sum ≥ 7) := by
  obtain ⟨e0, h0⟩ := hfail 0 (by omega)
  obtain ⟨e1, h1⟩ := hfail 1 (by omega)
  obtain ⟨e2, h2⟩ := hfail 2 (by omega)
  have hmain : retryRequest 3 2 op = ⟨.ok v, 4, [1, 2, 4], 1⟩ := by
    simp only [retryRequest, retryGo, h0, h1, h2, hok]
    norm_num
  refine ⟨hmain, ?_⟩
  rw [hmain]
  norm_num

/-- C7 witness: the scenario theorem applied to a concrete operation
failing exactly on the first three attempts. -/
theorem c7_backoff_scenario_witness :
    retryRequest 3 2
        (fun n => if n < 3 then .error "timeout" else Except.ok (0 : Nat)) =
      ⟨.ok 0, 4, [1, 2, 4], 1⟩ := by
  refine (c7_backoff_scenario
    (fun n => if n < 3 then .error "timeout" else Except.ok (0 : Nat)) 0
    (fun n hn => ⟨"timeout", by simp [hn]⟩) (by norm_num)).1

/-- C4 counterexample: the claim says the reported success_rate equals
the ratio of processed to processed plus failed and equals 0 when both
are empty.  On the code, with both empty the division raises
ZeroDivisionError (no summary value is produced), and with one success
and one failure the reported value is 50 (a percentage), not the ratio
one half. -/
theorem c4_counterexample :
    generate_summary_report ["python"] ["US"] ["today 1-m"] ∅ [] = none ∧
    (generate_summary_report ["python"] ["US"] ["today 1-m"] {"a"}
        [⟨"b", "boom"⟩]).map ProcessingSummary.success_rate = some 50 ∧
    (50 : ℚ) ≠ 1 / 2 := by
  refine ⟨by simp [generate_summary_report], ?_, by norm_num⟩
  rw [generate_summary_report]
  norm_num

/-- C4 amended: when at least one task landed in processed_items or
failed_items, generate_summary_report reports
success_rate = processed / (processed + failed) × 100, a percentage,
together with the task counts; when both are empty the computation
raises ZeroDivisionError instead of reporting 0, and no summary is
produced. -/
theorem c4_amended (keywords locations timeframes : List String)
    (processed : Finset String) (failed : List Failure) :
    (0 < processed.card + failed.length →
      generate_summary_report keywords locations timeframes processed failed =
        some ⟨keywords.length * locations.length * timeframes.length,
              processed.card, failed.length,
              (processed.card : ℚ) /
                ((processed.card : ℚ) + (failed.length : ℚ)) * 100⟩) ∧
    generate_summary_report keywords locations timeframes ∅ [] = none := by
  constructor
  · intro h
    rw [generate_summary_report, if_neg (by omega)]
  · rw [generate_summary_report]
    simp

/-- C4 witness: the amended theorem applied at one processed task and no
failures. -/
theorem c4_amended_witness :
    generate_summary_report ["k"] ["l"] ["t"] {"a"} [] =
      some ⟨1, 1, 0, 100⟩ := by
  have h := (c4_amended ["k"] ["l"] ["t"] {"a"} []).1 (by decide)
  simpa using h

/-- C5: the claim says a resumed run filters previously processed task
identifiers out of the generated sequence and executes only the rest.
On the code, the resume branch of run_batch_processing is a bare pass:
with the demo configuration generating 6 tasks, of which a prior run
covered 4, a resumed run still slices and executes all 6 tasks, not the
remaining 2. -/
theorem c5_resume_is_noop :
    tasks_to_run ["ai", "ml", "py"] ["US", "GB"] ["today 1-m"]
        (some "20240101_000000") =
      generate_batch_tasks ["ai", "ml", "py"] ["US", "GB"] ["today 1-m"] ∧
    ((batchSlices 4 (tasks_to_run ["ai", "ml", "py"] ["US", "GB"]
        ["today 1-m"] (some "20240101_000000"))).flatten).length = 6 ∧
    (6 : Nat) ≠ 2 := by
  refine ⟨rfl, by decide, by decide⟩

/-- A string is determined by its character list. -/
theorem string_eq_of_data_eq {a b : String} (h : a.data = b.data) : a = b := by
  cases a
  cases b
  exact congrArg String.mk h

/-- Splitting at an underscore separator is unambiguous when the part
before the separator contains no underscore. -/
theorem sep_append_inj :
    ∀ (a b x y : List Char), '_' ∉ a → '_' ∉ b →
      a ++ '_' :: x = b ++ '_' :: y → a = b ∧ x = y := by
  intro a
  induction a with
  | nil =>
    intro b x y _ hb h
    cases b with
    | nil =>
      simp only [List.nil_append, List.cons.injEq] at h
      exact ⟨rfl, h.2⟩
    | cons c bs =>
      simp only [List.nil_append, List.cons_append, List.cons.injEq] at h
      exact absurd (List.mem_cons.mpr (Or.inl h.1)) hb
  | cons c as ih =>
    intro b x y ha hb h
    cases b with
    | nil =>
      simp only [List.nil_append, List.cons_append, List.cons.injEq] at h
      exact absurd (List.mem_cons.mpr (Or.inl h.1.symm)) ha
    | cons d bs =>
      simp only [List.cons_append, List.cons.injEq] at h
      obtain ⟨hcd, htail⟩ := h
      have ha2 : '_' ∉ as := fun m => ha (List.mem_cons.mpr (Or.inr m))
      have hb2 : '_' ∉ bs := fun m => hb (List.mem_cons.mpr (Or.inr m))
      obtain ⟨he, hxy⟩ := ih bs x y ha2 hb2 htail
      exact ⟨by rw [hcd, he], hxy⟩

/-- The space-to-underscore replacement is injective on character lists
that contain no underscore. -/
theorem replChar_inj_on :
    ∀ (t u : List Char), '_' ∉ t → '_' ∉ u →
      t.map replChar = u.map replChar → t = u := by
  intro t
  induction t with
  | nil =>
    intro u _ _ h
    cases u with
    | nil => rfl
    | cons c us => simp at h
  | cons c ts ih =>
    intro u ht hu h
    cases u with
    | nil => simp at h
    | cons d us =>
      simp only [List.map_cons, List.cons.injEq] at h
      obtain ⟨hhd, htl⟩ := h
      have ht2 : '_' ∉ ts := fun m => ht (List.mem_cons.mpr (Or.inr m))
      have hu2 : '_' ∉ us := fun m => hu (List.mem_cons.mpr (Or.inr m))
      have hc : c = d := by
        by_cases hcs : c = ' '
        · by_cases hds : d = ' '
          · rw [hcs, hds]
          · exfalso
            apply hu
            have hd2 : d = '_' := by
              simp only [replChar, hcs, if_pos rfl, if_neg hds] at hhd
              exact hhd.symm
            exact List.mem_cons.mpr (Or.inl hd2.symm)
        · by_cases hds : d = ' '
          · exfalso
            apply ht
            have hc2 : c = '_' := by
              simp only [replChar, hds, if_pos rfl, if_neg hcs] at hhd
              exact hhd
            exact List.mem_cons.mpr (Or.inl hc2.symm)
          · simpa [replChar, hcs, hds] using hhd
      rw [hc, ih us ht2 hu2 htl]

/-- The character list underlying a generated task identifier. -/
theorem task_id_data (k l t : String) :
    (task_id k l t).data =
      k.data ++ '_' :: (l.data ++ '_' :: t.data.map replChar) := by
  simp [task_id, replaceSpaces, String.data_append]

/-- C6 counterexample: the claim says two triples differing in any field
derive different task identifiers.  On the code the identifier join is
ambiguous: the triples (a_b, c, d) and (a, b, c d) differ in every field
yet produce the same identifier, because field underscores collide with
the separator and the timeframe space is rewritten to an underscore. -/
theorem c6_counterexample :
    task_id "a_b" "c" "d" = task_id "a" "b" "c d" ∧
      ¬ ((("a_b", "c", "d") : String × String × String) = ("a", "b", "c d")) := by
  exact ⟨rfl, by decide⟩

/-- C6 amended: task_id is a pure function of the triple, and it is
injective on triples whose keyword, location and timeframe contain no
underscore character (the configured values of the source satisfy this);
distinct triples can collide in general. -/
theorem c6_amended (k l t k2 l2 t2 : String)
    (hk : '_' ∉ k.data) (hl : '_' ∉ l.data) (ht : '_' ∉ t.data)
    (hk2 : '_' ∉ k2.data) (hl2 : '_' ∉ l2.data) (ht2 : '_' ∉ t2.data)
    (h : task_id k l t = task_id k2 l2 t2) :
    k = k2 ∧ l = l2 ∧ t = t2 := by
  have hd : (task_id k l t).data = (task_id k2 l2 t2).data :=
    congrArg String.data h
  rw [task_id_data, task_id_data] at hd
  obtain ⟨hke, hrest⟩ := sep_append_inj _ _ _ _ hk hk2 hd
  obtain ⟨hle, hte⟩ := sep_append_inj _ _ _ _ hl hl2 hrest
  have hge := replChar_inj_on _ _ ht ht2 hte
  exact ⟨string_eq_of_data_eq hke, string_eq_of_data_eq hle,
         string_eq_of_data_eq hge⟩

/-- C6 witness: the amended injectivity applied at a concrete
underscore-free triple from the default configuration. -/
theorem c6_amended_witness :
    ('_' ∉ ("python" : String).data) ∧
      (("python" : String) = "python" ∧ ("US" : String) = "US" ∧
        ("today 1-m" : String) = "today 1-m") := by
  refine ⟨by decide, ?_⟩
  exact c6_amended "python" "US" "today 1-m" "python" "US" "today 1-m"
    (by decide) (by decide) (by decide) (by decide) (by decide) (by decide) rfl

/-- C10: get_interest_over_time never surfaces an exception: it returns
None exactly when the retry loop re-raised its exhausted-retry error,
when the upstream returned None, or when the upstream returned an empty
frame — so those outcomes are indistinguishable at the task-processing
boundary; any Some result is the non-empty upstream frame with the
isPartial column dropped. -/
theorem c10_fetch_never_raises (retries : Nat) (backoff : ℚ)
    (op : Nat → Except String (Option DataFrame)) :
    (get_interest_over_time retries backoff op = none ↔
      (∃ e, (retryRequest retries backoff op).result = .error e) ∨
      (retryRequest retries backoff op).result = .ok none ∨
      (∃ df, (retryRequest retries backoff op).result = .ok (some df) ∧
        df.isEmpty = true)) ∧
    (∀ out, get_interest_over_time retries backoff op = some out →
      ∃ df, (retryRequest retries backoff op).result = .ok (some df) ∧
        df.isEmpty = false ∧ out = dropMetaColumn df) := by
  constructor
  · constructor
    · intro hnone
      cases hres : (retryRequest retries backoff op).result with
      | error e => exact Or.inl ⟨e, rfl⟩
      | ok o =>
        cases o with
        | none => exact Or.inr (Or.inl rfl)
        | some df =>
          by_cases hemp : df.isEmpty = true
          · exact Or.inr (Or.inr ⟨df, rfl, hemp⟩)
          · exfalso
            simp only [get_interest_over_time, hres, if_neg hemp] at hnone
            exact Option.some_ne_none _ hnone
    · intro h
      rcases h with ⟨e, he⟩ | he | ⟨df, hdf, hemp⟩
      · simp [get_interest_over_time, he]
      · simp [get_interest_over_time, he]
      · simp [get_interest_over_time, hdf, hemp]
  · intro out hout
    cases hres : (retryRequest retries backoff op).result with
    | error e => simp [get_interest_over_time, hres] at hout
    | ok o =>
      cases o with
      | none => simp [get_interest_over_time, hres] at hout
      | some df =>
        by_cases hemp : df.isEmpty = true
        · simp [get_interest_over_time, hres, hemp] at hout
        · simp only [get_interest_over_time, hres, if_neg hemp,
            Option.some.injEq] at hout
          exact ⟨df, rfl, by simpa using hemp, hout.symm⟩

/-- C10 witness: the characterization applied to an operation whose
first attempt already returns a non-empty frame. -/
theorem c10_fetch_never_raises_witness :
    ∃ df, (retryRequest 3 2 (fun _ =>
        Except.ok (some (⟨2, [("kw", [some 10, some 20])]⟩ : DataFrame)))).result
      = .ok (some df) ∧ df.isEmpty = false ∧
      (⟨2, [("kw", [some 10, some 20])]⟩ : DataFrame) = dropMetaColumn df := by
  refine (c10_fetch_never_raises 3 2 _).2
    (⟨2, [("kw", [some 10, some 20])]⟩ : DataFrame) (by decide)

/-- Positional access is invariant under a rewriting of the index. -/
theorem list_get_congr {β : Type} (L : List β) {i j : Nat} (h : i = j)
    (hi : i < L.length) : L.get ⟨i, hi⟩ = L.get ⟨j, h ▸ hi⟩ := by
  subst h
  rfl

/-- Positional access into the left part of an append. -/
theorem get_append_left_own {β : Type} (l₁ l₂ : List β) (i : Nat)
    (h : i < l₁.length) (h2 : i < (l₁ ++ l₂).length) :
    (l₁ ++ l₂).get ⟨i, h2⟩ = l₁.get ⟨i, h⟩ := by
  induction l₁ generalizing i with
  | nil => exact absurd h (by simp)
  | cons b bs ih =>
    cases i with
    | zero => rfl
    | succ i2 => exact ih i2 (by simpa using h) (by simpa using h2)

/-- Positional access into the right part of an append. -/
theorem get_append_right_own {β : Type} (l₁ l₂ : List β) (j : Nat)
    (hj : j < l₂.length) (h2 : l₁.length + j < (l₁ ++ l₂).length) :
    (l₁ ++ l₂).get ⟨l₁.length + j, h2⟩ = l₂.get ⟨j, hj⟩ := by
  induction l₁ with
  | nil =>
    have h0 : ([] : List β).length + j = j := by simp
    rw [list_get_congr _ h0]
    rfl
  | cons b bs ih =>
    have h0 : (b :: bs).length + j = (bs.length + j) + 1 := by
      simp only [List.length_cons]
      omega
    rw [list_get_congr _ h0]
    exact ih (by simp only [List.length_append]; omega)

/-- Positional access into a map. -/
theorem get_map_own {β γ : Type} (g : β → γ) (L : List β) (i : Nat)
    (hi : i < L.length) (h2 : i < (L.map g).length) :
    (L.map g).get ⟨i, h2⟩ = g (L.get ⟨i, hi⟩) := by
  induction L generalizing i with
  | nil => exact absurd hi (by simp)
  | cons b bs ih =>
    cases i with
    | zero => rfl
    | succ i2 => exact ih i2 (by simpa using hi) (by simpa using h2)

/-- Every inner block of a flatMap having the same length, the flattened
list has the product length. -/
theorem length_flatMap_uniform {α β : Type} (f : α → List β) (n : Nat)
    (hf : ∀ a, (f a).length = n) :
    ∀ l : List α, (l.flatMap f).length = l.length * n := by
  intro l
  induction l with
  | nil => simp
  | cons a l ih =>
    simp only [List.flatMap_cons, List.length_append, hf, ih,
      List.length_cons]
    ring

/-- Positional access into a flatMap whose inner blocks all have length
n: the element at position i * n + j is element j of block i. -/
theorem getElem_flatMap_uniform {α β : Type} (f : α → List β) (n : Nat)
    (hf : ∀ a, (f a).length = n) :
    ∀ (l : List α) (i j : Nat) (hi : i < l.length) (hj : j < n)
      (hidx : i * n + j < (l.flatMap f).length),
      (l.flatMap f).get ⟨i * n + j, hidx⟩ =
        (f (l.get ⟨i, hi⟩)).get ⟨j, by rw [hf]; exact hj⟩ := by
  intro l
  induction l with
  | nil =>
    intro i j hi
    exact absurd hi (by simp)
  | cons a l ih =>
    intro i j hi hj hidx
    cases i with
    | zero =>
      have h0 : 0 * n + j = j := by omega
      rw [list_get_congr _ h0]
      have hja : j < (f a).length := by rw [hf]; exact hj
      exact get_append_left_own (f a) (l.flatMap f) j hja (h0 ▸ hidx)
    | succ i2 =>
      have hshift : (i2 + 1) * n + j = (f a).length + (i2 * n + j) := by
        rw [hf]
        ring
      rw [list_get_congr _ hshift]
      have hlen : ((a :: l).flatMap f).length =
          (f a).length + (l.flatMap f).length := List.length_append _ _
      have hlt : i2 * n + j < (l.flatMap f).length := by
        have := hshift ▸ hidx
        omega
      have e2 : ((a :: l).flatMap f).get
          ⟨(f a).length + (i2 * n + j), hshift ▸ hidx⟩ =
          (l.flatMap f).get ⟨i2 * n + j, hlt⟩ :=
        get_append_right_own (f a) (l.flatMap f) (i2 * n + j) hlt
          (hshift ▸ hidx)
      rw [e2]
      exact ih i2 j (by simpa using hi) hj hlt

/-- C8: the task generator returns a sequence of length
keywords × locations × timeframes, in keyword-major, then location, then
timeframe order: the element at position
ik × (locations × timeframes) + (il × timeframes + it) is the task for
keyword ik, location il, timeframe it.  The generator is a pure function
of its three list arguments, so repeated calls yield the same sequence. -/
theorem c8_generator_product_order (keywords locations timeframes : List String) :
    (generate_batch_tasks keywords locations timeframes).length =
      keywords.length * locations.length * timeframes.length
    ∧ ∀ (ik il it : Nat) (hk : ik < keywords.length)
        (hl : il < locations.length) (ht : it < timeframes.length)
        (hidx : ik * (locations.length * timeframes.length) +
          (il * timeframes.length + it) <
          (generate_batch_tasks keywords locations timeframes).length),
        (generate_batch_tasks keywords locations timeframes).get
          ⟨ik * (locations.length * timeframes.length) +
            (il * timeframes.length + it), hidx⟩ =
          mkTask (keywords.get ⟨ik, hk⟩) (locations.get ⟨il, hl⟩)
            (timeframes.get ⟨it, ht⟩) := by
  have hinner : ∀ k, (locations.flatMap
      (fun l => timeframes.map (fun t => mkTask k l t))).length =
      locations.length * timeframes.length := fun k =>
    length_flatMap_uniform _ _ (fun l => by simp) locations
  constructor
  · show (keywords.flatMap (fun k => locations.flatMap
      (fun l => timeframes.map (fun t => mkTask k l t)))).length = _
    rw [length_flatMap_uniform _ _ hinner keywords, Nat.mul_assoc]
  · intro ik il it hk hl ht hidx
    have hj : il * timeframes.length + it <
        locations.length * timeframes.length := by
      have h1 : il * timeframes.length + it < (il + 1) * timeframes.length := by
        rw [Nat.succ_mul]
        omega
      have h2 : (il + 1) * timeframes.length ≤
          locations.length * timeframes.length :=
        Nat.mul_le_mul_right _ (by omega)
      exact lt_of_lt_of_le h1 h2
    have houter := getElem_flatMap_uniform
      (fun k => locations.flatMap (fun l => timeframes.map (fun t => mkTask k l t)))
      (locations.length * timeframes.length) hinner keywords ik
      (il * timeframes.length + it) hk hj hidx
    have hmapLen : ∀ l, (timeframes.map
        (fun t => mkTask (keywords.get ⟨ik, hk⟩) l t)).length =
        timeframes.length := fun l => by simp
    have hidx2 : il * timeframes.length + it <
        ((locations.flatMap (fun l => timeframes.map
          (fun t => mkTask (keywords.get ⟨ik, hk⟩) l t)))).length := by
      rw [hinner]
      exact hj
    have hin := getElem_flatMap_uniform
      (fun l => timeframes.map (fun t => mkTask (keywords.get ⟨ik, hk⟩) l t))
      timeframes.length hmapLen locations il it hl ht hidx2
    have hmt : it < (timeframes.map
        (fun t => mkTask (keywords.get ⟨ik, hk⟩) (locations.get ⟨il, hl⟩) t)).length := by
      simpa using ht
    exact houter.trans (hin.trans (get_map_own _ timeframes it ht hmt))

/-- C8 witness: the product-order theorem applied at a concrete
configuration of 2 keywords, 1 location and 2 timeframes, index (1,0,1). -/
theorem c8_generator_product_order_witness :
    (generate_batch_tasks ["a", "b"] ["x"] ["t1", "t2"]).get ⟨3, by decide⟩ =
      mkTask "b" "x" "t2" := by
  have h := (c8_generator_product_order ["a", "b"] ["x"] ["t1", "t2"]).2
    1 0 1 (by decide) (by decide) (by decide) (by decide)
  simpa using h

/-- The seed is below the running maximum of a left fold. -/
theorem le_foldl_max (xs : List ℚ) : ∀ x : ℚ, x ≤ xs.foldl max x := by
  induction xs with
  | nil => intro x; exact le_refl x
  | cons a l ih => intro x; exact le_trans (le_max_left x a) (ih (max x a))

/-- Every element is below the running maximum of a left fold. -/
theorem mem_le_foldl_max (xs : List ℚ) :
    ∀ (x v : ℚ), v ∈ xs → v ≤ xs.foldl max x := by
  induction xs with
  | nil => intro x v hv; exact absurd hv (by simp)
  | cons a l ih =>
    intro x v hv
    rcases List.mem_cons.mp hv with h | h
    · subst h
      exact le_trans (le_max_right x v) (le_foldl_max l (max x v))
    · exact ih (max x a) v h

/-- The running maximum of a left fold is the seed or an element. -/
theorem foldl_max_mem (xs : List ℚ) :
    ∀ x : ℚ, xs.foldl max x = x ∨ xs.foldl max x ∈ xs := by
  induction xs with
  | nil => intro x; exact Or.inl rfl
  | cons a l ih =>
    intro x
    rw [List.foldl_cons]
    rcases ih (max x a) with h | h
    · rcases max_choice x a with hx | ha
      · exact Or.inl (by rw [h, hx])
      · exact Or.inr (by rw [h, ha]; exact List.mem_cons_self a l)
    · exact Or.inr (List.mem_cons.mpr (Or.inr h))

/-- The seed is above the running minimum of a left fold. -/
theorem foldl_min_le (xs : List ℚ) : ∀ x : ℚ, xs.foldl min x ≤ x := by
  induction xs with
  | nil => intro x; exact le_refl x
  | cons a l ih => intro x; exact le_trans (ih (min x a)) (min_le_left x a)

/-- Every element is above the running minimum of a left fold. -/
theorem foldl_min_le_mem (xs : List ℚ) :
    ∀ (x v : ℚ), v ∈ xs → xs.foldl min x ≤ v := by
  induction xs with
  | nil => intro x v hv; exact absurd hv (by simp)
  | cons a l ih =>
    intro x v hv
    rcases List.mem_cons.mp hv with h | h
    · subst h
      exact le_trans (foldl_min_le l (min x v)) (min_le_right x v)
    · exact ih (min x a) v h

/-- The running minimum of a left fold is the seed or an element. -/
theorem foldl_min_mem (xs : List ℚ) :
    ∀ x : ℚ, xs.foldl min x = x ∨ xs.foldl min x ∈ xs := by
  induction xs with
  | nil => intro x; exact Or.inl rfl
  | cons a l ih =>
    intro x
    rw [List.foldl_cons]
    rcases ih (min x a) with h | h
    · rcases min_choice x a with hx | ha
      · exact Or.inl (by rw [h, hx])
      · exact Or.inr (by rw [h, ha]; exact List.mem_cons_self a l)
    · exact Or.inr (List.mem_cons.mpr (Or.inr h))

/-- The max-or-min range test of validate_data detects exactly the
presence of an out-of-range value. -/
theorem seriesRange_iff (x : ℚ) (xs : List ℚ) :
    (seriesMax (x :: xs) > 100 ∨ seriesMin (x :: xs) < 0) ↔
      ∃ v ∈ x :: xs, v > 100 ∨ v < 0 := by
  constructor
  · rintro (hmax | hmin)
    · rw [seriesMax] at hmax
      rcases foldl_max_mem xs x with h | h
      · exact ⟨x, List.mem_cons_self x xs, Or.inl (h ▸ hmax)⟩
      · exact ⟨xs.foldl max x, List.mem_cons.mpr (Or.inr h), Or.inl hmax⟩
    · rw [seriesMin] at hmin
      rcases foldl_min_mem xs x with h | h
      · exact ⟨x, List.mem_cons_self x xs, Or.inr (h ▸ hmin)⟩
      · exact ⟨xs.foldl min x, List.mem_cons.mpr (Or.inr h), Or.inr hmin⟩
  · rintro ⟨v, hv, hout | hout⟩
    · left
      rw [seriesMax]
      rcases List.mem_cons.mp hv with h | h
      · exact lt_of_lt_of_le hout (h ▸ le_foldl_max xs x)
      · exact lt_of_lt_of_le hout (mem_le_foldl_max xs x v h)
    · right
      rw [seriesMin]
      rcases List.mem_cons.mp hv with h | h
      · exact lt_of_le_of_lt (h ▸ foldl_min_le xs x) hout
      · exact lt_of_le_of_lt (foldl_min_le_mem xs x v h) hout

/-- A present value of a column is exactly a member of its dropna list. -/
theorem mem_columnValues_iff (cells : List (Option ℚ)) (v : ℚ) :
    v ∈ columnValues cells ↔ some v ∈ cells := by
  rw [columnValues, List.mem_filterMap]
  constructor
  · rintro ⟨a, ha, haeq⟩
    rwa [show a = some v from haeq] at ha
  · intro h
    exact ⟨some v, h, rfl⟩

/-- Per-column acceptance of the validate_data range scan: a non-date
column passes exactly when it holds no present value outside 0..100. -/
theorem validColumnCheck_true_iff (name : String) (cells : List (Option ℚ)) :
    validColumnCheck name cells = true ↔
      ¬ (name ≠ "date" ∧ ∃ v, some v ∈ cells ∧ (v < 0 ∨ v > 100)) := by
  by_cases hdate : name = "date"
  · simp [validColumnCheck, hdate]
  · cases hv : columnValues cells with
    | nil =>
      simp only [validColumnCheck, if_neg hdate, hv, List.length_nil,
        gt_iff_lt, Nat.lt_irrefl, if_false]
      constructor
      · rintro - ⟨-, v, hvm, -⟩
        have hmem := (mem_columnValues_iff cells v).mpr hvm
        rw [hv] at hmem
        exact absurd hmem (List.not_mem_nil v)
      · intro h
        trivial
    | cons x xs =>
      simp only [validColumnCheck, if_neg hdate, hv, List.length_cons]
      rw [if_pos (by omega)]
      constructor
      · intro hL
        rintro ⟨-, v, hvm, hvo⟩
        have hvmem : v ∈ x :: xs := by
          rw [← hv]
          exact (mem_columnValues_iff cells v).mpr hvm
        have hout : seriesMax (x :: xs) > 100 ∨ seriesMin (x :: xs) < 0 :=
          (seriesRange_iff x xs).mpr ⟨v, hvmem, hvo.symm⟩
        have hcond : (decide (seriesMax (x :: xs) > 100) ||
            decide (seriesMin (x :: xs) < 0)) = true := by
          rcases hout with h | h <;> simp [h]
        rw [if_pos (by exact hcond)] at hL
        exact absurd hL (by simp)
      · intro hR
        have hcond : (decide (seriesMax (x :: xs) > 100) ||
            decide (seriesMin (x :: xs) < 0)) = false := by
          by_contra hc
          have hc2 : seriesMax (x :: xs) > 100 ∨ seriesMin (x :: xs) < 0 := by
            rcases Bool.eq_false_or_eq_true
              (decide (seriesMax (x :: xs) > 100) ||
                decide (seriesMin (x :: xs) < 0)) with h | h
            · simpa using h
            · exact absurd h hc
          obtain ⟨v, hvmem, hvo⟩ := (seriesRange_iff x xs).mp hc2
          apply hR
          refine ⟨hdate, v, ?_, hvo.symm⟩
          exact (mem_columnValues_iff cells v).mp (hv ▸ hvmem)
        rw [if_neg (by simp [hcond])]

/-- A Bool equality follows from the equivalence of the truth of the
two sides. -/
theorem bool_eq_of_iff {a b : Bool} (h : a = true ↔ b = true) : a = b := by
  cases a <;> cases b <;> simp_all

/-- A conjunction-wise complement turns a Bool all into the negation of
a Bool any. -/
theorem all_eq_not_any {γ : Type} (L : List γ) (p q : γ → Bool)
    (h : ∀ c ∈ L, p c = !q c) : L.all p = !L.any q := by
  induction L with
  | nil => rfl
  | cons a l ih =>
    simp only [List.all_cons, List.any_cons, Bool.not_or]
    rw [h a (List.mem_cons_self a l),
      ih (fun c hc => h c (List.mem_cons.mpr (Or.inr hc)))]

/-- A column holds an out-of-range cell exactly when one of its present
values lies outside the bounds. -/
theorem any_cellOut_iff (low high : ℚ) (cells : List (Option ℚ)) :
    cells.any (cellOutOfRange low high) = true ↔
      ∃ v, some v ∈ cells ∧ (v < low ∨ v > high) := by
  rw [List.any_eq_true]
  constructor
  · rintro ⟨cell, hcm, hc⟩
    cases cell with
    | none => simp [cellOutOfRange] at hc
    | some v =>
      refine ⟨v, hcm, ?_⟩
      simpa [cellOutOfRange] using hc
  · rintro ⟨v, hvm, hvo⟩
    exact ⟨some v, hvm, by simpa [cellOutOfRange] using hvo⟩

/-- The column loop of validate_data accepts exactly when no non-date
column holds a present value outside the fixed range 0..100. -/
theorem validate_range_scan_eq (data : DataFrame) :
    (data.cols.all fun c => validColumnCheck c.1 c.2) =
      !(anyValueOutOfFixedRange data) := by
  rw [anyValueOutOfFixedRange]
  apply all_eq_not_any
  intro c hc
  apply bool_eq_of_iff
  rw [validColumnCheck_true_iff, Bool.not_eq_true']
  constructor
  · intro h
    rcases Bool.eq_false_or_eq_true
        ((decide (c.1 ≠ "date")) && c.2.any (cellOutOfRange 0 100)) with hb | hb
    · exfalso
      rw [Bool.and_eq_true] at hb
      obtain ⟨h1, h2⟩ := hb
      exact h ⟨by simpa using h1, (any_cellOut_iff 0 100 c.2).mp h2⟩
    · exact hb
  · intro hb
    rintro ⟨h1, h2⟩
    have hb2 : ((decide (c.1 ≠ "date")) && c.2.any (cellOutOfRange 0 100)) = true := by
      rw [Bool.and_eq_true]
      exact ⟨by simpa using h1, (any_cellOut_iff 0 100 c.2).mpr h2⟩
    rw [hb] at hb2
    exact Bool.false_ne_true hb2

/-- C9 counterexample: the claim reads the range rule as using a
configured low..high interval.  With the interval configured to 0..50
and a fetched value of 75, the spec pipeline rejects with reason
value_out_of_range, while validate_data accepts: the code checks the
fixed Google-Trends range 0..100, not a configured one. -/
theorem c9_counterexample :
    validate_data ⟨1, [("v", [some 75])]⟩ ⟨0, 1, true⟩ = true ∧
    (specValidate ⟨1, [("v", [some 75])]⟩ ⟨0, 1, true, 0, 50⟩).accepted
      = false := by
  have hr : DataFrame.missingRatio ⟨1, [("v", [some 75])]⟩ = 0 := by
    have hmc : DataFrame.missingCount ⟨1, [("v", [some 75])]⟩ = 0 := rfl
    have hnc : DataFrame.ncols ⟨1, [("v", [some 75])]⟩ = 1 := rfl
    rw [DataFrame.missingRatio, hmc, hnc]
    norm_num
  constructor
  · rw [validate_data]
    rw [if_neg (by norm_num), if_neg (by rw [hr]; norm_num)]
    decide
  · rw [specValidate]
    rw [if_neg (by norm_num), if_neg (by rw [hr]; norm_num)]
    rw [if_pos (by decide)]

/-- C9 amended: for every data frame and validation configuration, the
acceptance of validate_data equals the spec-style pipeline applied with
the missing fraction taken over all columns and the fixed range 0..100
enforced over non-date columns (rules in order, first failure winning);
and a 12-record single-column result with 25 percent missing values is
rejected at threshold 0.2 and accepted at threshold 0.3. -/
theorem c9_amended :
    (∀ (data : DataFrame) (cfg : ValidationConfig),
      validate_data data cfg = (specValidateAmended data cfg).accepted) ∧
    validate_data ⟨12, [("kw", [some 10, some 20, some 30, none, some 40,
        some 50, some 60, none, some 70, some 80, some 90, none])]⟩
      ⟨10, 1 / 5, true⟩ = false ∧
    validate_data ⟨12, [("kw", [some 10, some 20, some 30, none, some 40,
        some 50, some 60, none, some 70, some 80, some 90, none])]⟩
      ⟨10, 3 / 10, true⟩ = true := by
  refine ⟨?_, ?_, ?_⟩
  · intro data cfg
    by_cases h1 : data.nrows < cfg.min_data_points
    · simp [validate_data, specValidateAmended, h1]
    · by_cases h2 : data.missingRatio > cfg.max_missing_values
      · simp [validate_data, specValidateAmended, h1, h2]
      · by_cases h3 : cfg.validate_trends = true
        · rw [validate_data, specValidateAmended, if_neg h1, if_neg h1,
            if_neg h2, if_neg h2, if_pos h3, validate_range_scan_eq]
          cases hA : anyValueOutOfFixedRange data
          · simp [h3]
          · simp [h3]
        · simp [validate_data, specValidateAmended, h1, h2, h3]
  · have hr : DataFrame.missingRatio ⟨12, [("kw", [some 10, some 20,
        some 30, none, some 40, some 50, some 60, none, some 70, some 80,
        some 90, none])]⟩ = 1 / 4 := by
      have hmc : DataFrame.missingCount ⟨12, [("kw", [some 10, some 20,
          some 30, none, some 40, some 50, some 60, none, some 70, some 80,
          some 90, none])]⟩ = 3 := rfl
      have hnc : DataFrame.ncols ⟨12, [("kw", [some 10, some 20, some 30,
          none, some 40, some 50, some 60, none, some 70, some 80, some 90,
          none])]⟩ = 1 := rfl
      rw [DataFrame.missingRatio, hmc, hnc]
      norm_num
    rw [validate_data, if_neg (by norm_num), if_pos (by rw [hr]; norm_num)]
  · have hr : DataFrame.missingRatio ⟨12, [("kw", [some 10, some 20,
        some 30, none, some 40, some 50, some 60, none, some 70, some 80,
        some 90, none])]⟩ = 1 / 4 := by
      have hmc : DataFrame.missingCount ⟨12, [("kw", [some 10, some 20,
          some 30, none, some 40, some 50, some 60, none, some 70, some 80,
          some 90, none])]⟩ = 3 := rfl
      have hnc : DataFrame.ncols ⟨12, [("kw", [some 10, some 20, some 30,
          none, some 40, some 50, some 60, none, some 70, some 80, some 90,
          none])]⟩ = 1 := rfl
      rw [DataFrame.missingRatio, hmc, hnc]
      norm_num
    rw [validate_data, if_neg (by norm_num), if_neg (by rw [hr]; norm_num)]
    decide

/-! Per-task and batch accounting (claims C1 and C2). -/

/-- A task environment on which process_single_task reaches a result:
the fetch returned a non-empty frame, processing returned a frame, and
validation passed. -/
def succeedsP (cfg : ValidationConfig) (env : TaskEnv) : Prop :=
  ∃ df pdf, env.fetch = some df ∧ df.isEmpty = false ∧
    env.processFn df = .ok pdf ∧ validate_data pdf cfg = true

/-- A task environment on which the worker body raises: the fetch
returned a non-empty frame and processing raised. -/
def raisesP (env : TaskEnv) : Prop :=
  ∃ df e, env.fetch = some df ∧ df.isEmpty = false ∧
    env.processFn df = .error e

/-- No environment both succeeds and raises. -/
theorem succeeds_raises_exclusive (cfg : ValidationConfig) (env : TaskEnv) :
    ¬ (succeedsP cfg env ∧ raisesP env) := by
  rintro ⟨⟨df, pdf, hf, he, hp, hv⟩, ⟨df2, e, hf2, he2, hp2⟩⟩
  rw [hf] at hf2
  injection hf2 with hdd
  rw [← hdd, hp] at hp2
  exact Except.noConfusion hp2

/-- The three observable outcomes of process_single_task: a result with
failed_items untouched on success; no result and one appended failure
record on a raising worker; no result and failed_items untouched
otherwise (empty fetch or failed validation). -/
theorem pst_cases (cfg : ValidationConfig) (env : TaskEnv) (task : Task)
    (failed : List Failure) :
    (succeedsP cfg env → ∃ r, process_single_task cfg env task failed =
      (some r, failed)) ∧
    (raisesP env → ∃ e, process_single_task cfg env task failed =
      (none, failed ++ [⟨task.tid, e⟩])) ∧
    (¬ succeedsP cfg env → ¬ raisesP env →
      process_single_task cfg env task failed = (none, failed)) := by
  refine ⟨?_, ?_, ?_⟩
  · rintro ⟨df, pdf, hf, he, hp, hv⟩
    exact ⟨⟨task.tid, task.keyword, task.location, task.timeframe, pdf⟩,
      by simp [process_single_task, hf, he, hp, hv]⟩
  · rintro ⟨df, e, hf, he, hp⟩
    exact ⟨e, by simp [process_single_task, hf, he, hp]⟩
  · intro hns hnr
    cases hf : env.fetch with
    | none => simp [process_single_task, hf]
    | some df =>
      by_cases he : df.isEmpty = true
      · simp [process_single_task, hf, he]
      · cases hp : env.processFn df with
        | error e =>
          exact absurd ⟨df, e, hf, by simpa using he, hp⟩ hnr
        | ok pdf =>
          by_cases hv : validate_data pdf cfg = true
          · exact absurd ⟨df, pdf, hf, by simpa using he, hp, hv⟩ hns
          · simp [process_single_task, hf, he, hp, hv]

/-- Membership change produced by one completed task: its identifier is
added to processed_items exactly on success and to the failure records
exactly on a raising worker; nothing else changes. -/
theorem step_mem (cfg : ValidationConfig) (envOf : Task → TaskEnv)
    (s : BatchState) (task : Task) (x : String) :
    (x ∈ (processCompletedTask cfg envOf s task).processed_items ↔
      (x = task.tid ∧ succeedsP cfg (envOf task)) ∨ x ∈ s.processed_items) ∧
    (x ∈ (processCompletedTask cfg envOf s task).failed_items.map Failure.tid ↔
      (x = task.tid ∧ raisesP (envOf task)) ∨
        x ∈ s.failed_items.map Failure.tid) := by
  by_cases hs : succeedsP cfg (envOf task)
  · obtain ⟨r, hr⟩ := (pst_cases cfg (envOf task) task s.failed_items).1 hs
    have hstep : processCompletedTask cfg envOf s task =
        ⟨insert task.tid s.processed_items, s.failed_items,
         s.results ++ [r]⟩ := by
      simp [processCompletedTask, hr]
    rw [hstep]
    have hnr : ¬ raisesP (envOf task) := fun hr2 =>
      succeeds_raises_exclusive cfg (envOf task) ⟨hs, hr2⟩
    constructor
    · simp [Finset.mem_insert, hs]
    · simp [hnr]
  · by_cases hr : raisesP (envOf task)
    · obtain ⟨e, he⟩ := (pst_cases cfg (envOf task) task s.failed_items).2.1 hr
      have hstep : processCompletedTask cfg envOf s task =
          ⟨s.processed_items, s.failed_items ++ [⟨task.tid, e⟩],
           s.results⟩ := by
        simp [processCompletedTask, he]
      rw [hstep]
      constructor
      · simp [hs]
      · rw [List.map_append, List.mem_append]
        simp only [List.map_cons, List.map_nil, List.mem_singleton]
        constructor
        · rintro (hmem | hx)
          · exact Or.inr hmem
          · exact Or.inl ⟨hx, hr⟩
        · rintro (⟨hx, -⟩ | hmem)
          · exact Or.inr hx
          · exact Or.inl hmem
    · have h3 := (pst_cases cfg (envOf task) task s.failed_items).2.2 hs hr
      have hstep : processCompletedTask cfg envOf s task =
          ⟨s.processed_items, s.failed_items, s.results⟩ := by
        simp [processCompletedTask, h3]
      rw [hstep]
      constructor
      · simp [hs]
      · simp [hr]

/-- Batch-level accounting: after process_batch, an identifier is in
processed_items exactly when it was already there or belongs to a
succeeding input task, and among the failure identifiers exactly when
already there or belonging to a raising input task. -/
theorem batch_mem (cfg : ValidationConfig) (envOf : Task → TaskEnv) :
    ∀ (tasks : List Task) (s : BatchState) (x : String),
      (x ∈ (process_batch cfg envOf tasks s).processed_items ↔
        (∃ t ∈ tasks, x = t.tid ∧ succeedsP cfg (envOf t)) ∨
          x ∈ s.processed_items) ∧
      (x ∈ (process_batch cfg envOf tasks s).failed_items.map Failure.tid ↔
        (∃ t ∈ tasks, x = t.tid ∧ raisesP (envOf t)) ∨
          x ∈ s.failed_items.map Failure.tid) := by
  intro tasks
  induction tasks with
  | nil => intro s x; simp [process_batch]
  | cons task rest ih =>
    intro s x
    have hfold : process_batch cfg envOf (task :: rest) s =
        process_batch cfg envOf rest (processCompletedTask cfg envOf s task) :=
      rfl
    rw [hfold]
    obtain ⟨ih1, ih2⟩ := ih (processCompletedTask cfg envOf s task) x
    obtain ⟨st1, st2⟩ := step_mem cfg envOf s task x
    constructor
    · rw [ih1, st1]
      constructor
      · rintro (⟨t, ht, h⟩ | (⟨hx, hsucc⟩ | hmem))
        · exact Or.inl ⟨t, List.mem_cons.mpr (Or.inr ht), h⟩
        · exact Or.inl ⟨task, List.mem_cons_self _ _, hx, hsucc⟩
        · exact Or.inr hmem
      · rintro (⟨t, ht, h⟩ | hmem)
        · rcases List.mem_cons.mp ht with heq | ht2
          · exact Or.inr (Or.inl (heq ▸ h))
          · exact Or.inl ⟨t, ht2, h⟩
        · exact Or.inr (Or.inr hmem)
    · rw [ih2, st2]
      constructor
      · rintro (⟨t, ht, h⟩ | (⟨hx, hraise⟩ | hmem))
        · exact Or.inl ⟨t, List.mem_cons.mpr (Or.inr ht), h⟩
        · exact Or.inl ⟨task, List.mem_cons_self _ _, hx, hraise⟩
        · exact Or.inr hmem
      · rintro (⟨t, ht, h⟩ | hmem)
        · rcases List.mem_cons.mp ht with heq | ht2
          · exact Or.inr (Or.inl (heq ▸ h))
          · exact Or.inl ⟨t, ht2, h⟩
        · exact Or.inr (Or.inr hmem)

/-- C1 counterexample: the claim says every task identifier ends in
exactly one of processed_items or failed_items.  On the code an empty
fetch (get_interest_over_time returning None) makes process_single_task
return None without recording anything, so after the batch the task is
in neither: both sets are still empty. -/
theorem c1_counterexample :
    (process_batch ⟨10, 1, true⟩ (fun _ => ⟨none, fun d => Except.ok d⟩)
      [mkTask "k" "US" "today 1-m"] ⟨∅, [], []⟩).processed_items = ∅ ∧
    (process_batch ⟨10, 1, true⟩ (fun _ => ⟨none, fun d => Except.ok d⟩)
      [mkTask "k" "US" "today 1-m"] ⟨∅, [], []⟩).failed_items = [] := by
  exact ⟨rfl, rfl⟩

/-- C1 amended: starting from an empty state, a batch with pairwise
distinct task identifiers puts each input task in at most one of the two
records — in processed_items exactly when its fetch returned a non-empty
frame that was processed and validated, among the failure records
exactly when its worker raised — while a task whose fetch was empty or
whose validation failed appears in neither. -/
theorem c1_amended (cfg : ValidationConfig) (envOf : Task → TaskEnv)
    (tasks : List Task) (hnd : (tasks.map Task.tid).Nodup)
    (t : Task) (ht : t ∈ tasks) :
    (t.tid ∈ (process_batch cfg envOf tasks ⟨∅, [], []⟩).processed_items ↔
      succeedsP cfg (envOf t)) ∧
    (t.tid ∈ (process_batch cfg envOf tasks
        ⟨∅, [], []⟩).failed_items.map Failure.tid ↔ raisesP (envOf t)) ∧
    ¬ (succeedsP cfg (envOf t) ∧ raisesP (envOf t)) := by
  obtain ⟨h1, h2⟩ := batch_mem cfg envOf tasks ⟨∅, [], []⟩ t.tid
  refine ⟨?_, ?_, succeeds_raises_exclusive cfg (envOf t)⟩
  · rw [h1]
    constructor
    · rintro (⟨t2, ht2, he, hsucc⟩ | hmem)
      · rw [List.inj_on_of_nodup_map hnd ht ht2 he]
        exact hsucc
      · exact absurd hmem (by simp)
    · intro hsucc
      exact Or.inl ⟨t, ht, rfl, hsucc⟩
  · rw [h2]
    constructor
    · rintro (⟨t2, ht2, he, hraise⟩ | hmem)
      · rw [List.inj_on_of_nodup_map hnd ht ht2 he]
        exact hraise
      · exact absurd hmem (by simp)
    · intro hraise
      exact Or.inl ⟨t, ht, rfl, hraise⟩

/-- C1 witness: the amended accounting applied to a concrete two-task
batch with distinct identifiers. -/
theorem c1_amended_witness :
    (([mkTask "a" "US" "today 1-m",
        mkTask "b" "US" "today 1-m"].map Task.tid).Nodup) ∧
    ((mkTask "a" "US" "today 1-m").tid ∈
        (process_batch ⟨0, 1, false⟩
          (fun task => if task.keyword = "a"
            then ⟨some ⟨5, [("kw", [some 1, some 2, some 3, some 4, some 5])]⟩,
                  fun d => Except.ok d⟩
            else ⟨none, fun d => Except.ok d⟩)
          [mkTask "a" "US" "today 1-m", mkTask "b" "US" "today 1-m"]
          ⟨∅, [], []⟩).processed_items ↔
      succeedsP ⟨0, 1, false⟩
        ((fun task => if task.keyword = "a"
          then ⟨some ⟨5, [("kw", [some 1, some 2, some 3, some 4, some 5])]⟩,
                fun d => Except.ok d⟩
          else ⟨none, fun d => Except.ok d⟩)
          (mkTask "a" "US" "today 1-m"))) := by
  refine ⟨by decide, ?_⟩
  exact (c1_amended ⟨0, 1, false⟩
    (fun task => if task.keyword = "a"
      then ⟨some ⟨5, [("kw", [some 1, some 2, some 3, some 4, some 5])]⟩,
            fun d => Except.ok d⟩
      else ⟨none, fun d => Except.ok d⟩)
    [mkTask "a" "US" "today 1-m", mkTask "b" "US" "today 1-m"]
    (by decide) (mkTask "a" "US" "today 1-m") (by decide)).1

/-- C2 counterexample: the claim says a fetched result failing the
validation gate is recorded in the failed sequence with reason
validation_failed.  On the code a result with 5 records against a
10-record minimum fails validation and process_single_task returns None
leaving failed_items empty: the rejection is silently discarded. -/
theorem c2_counterexample :
    validate_data ⟨5, [("kw", [some 1, some 2, some 3, some 4, some 5])]⟩
      ⟨10, 1, true⟩ = false ∧
    process_single_task ⟨10, 1, true⟩
      ⟨some ⟨5, [("kw", [some 1, some 2, some 3, some 4, some 5])]⟩,
       fun d => Except.ok d⟩
      (mkTask "k" "US" "today 1-m") [] = (none, []) := by
  exact ⟨by decide, by decide⟩

/-- C2 amended: a fetched result that fails validation is silently
dropped — process_single_task returns None and leaves failed_items
unchanged, recording nothing — while a result is returned (and so added
to the accepted successes) only when its processed data passed
validation, again with failed_items unchanged. -/
theorem c2_amended (cfg : ValidationConfig) (env : TaskEnv) (task : Task)
    (failed : List Failure) :
    (∀ df pdf, env.fetch = some df → df.isEmpty = false →
      env.processFn df = .ok pdf → validate_data pdf cfg = false →
      process_single_task cfg env task failed = (none, failed)) ∧
    (∀ r failed2,
      process_single_task cfg env task failed = (some r, failed2) →
      validate_data r.data cfg = true ∧ failed2 = failed) := by
  constructor
  · intro df pdf hf he hp hv
    simp [process_single_task, hf, he, hp, hv]
  · intro r failed2 hres
    cases hf : env.fetch with
    | none => simp [process_single_task, hf] at hres
    | some df =>
      by_cases he : df.isEmpty = true
      · simp [process_single_task, hf, he] at hres
      · cases hp : env.processFn df with
        | error e => simp [process_single_task, hf, he, hp] at hres
        | ok pdf =>
          by_cases hv : validate_data pdf cfg = true
          · have hval : process_single_task cfg env task failed =
                (some ⟨task.tid, task.keyword, task.location,
                  task.timeframe, pdf⟩, failed) := by
              simp [process_single_task, hf, he, hp, hv]
            rw [hval] at hres
            injection hres with h1 h2
            injection h1 with h3
            constructor
            · rw [← h3]
              exact hv
            · exact h2.symm
          · simp [process_single_task, hf, he, hp, hv] at hres

/-- C2 witness: the amended theorem applied to a concrete
validation-failing environment. -/
theorem c2_amended_witness :
    process_single_task ⟨10, 1, true⟩
      ⟨some ⟨5, [("kw", [some 1, some 2, some 3, some 4, some 5])]⟩,
       fun d => Except.ok d⟩
      (mkTask "kw2" "GB" "today 3-m") [] = (none, []) := by
  exact (c2_amended ⟨10, 1, true⟩
    ⟨some ⟨5, [("kw", [some 1, some 2, some 3, some 4, some 5])]⟩,
     fun d => Except.ok d⟩
    (mkTask "kw2" "GB" "today 3-m") []).1
    ⟨5, [("kw", [some 1, some 2, some 3, some 4, some 5])]⟩
    ⟨5, [("kw", [some 1, some 2, some 3, some 4, some 5])]⟩
    rfl (by decide) rfl (by decide)

end BatchTrends
